import Mathlib

/-!
Shallow embedding of the HealthCare-System RBAC pipeline
(src/chatbot/chatbot.py, src/ai/deepseek_handler.py,
src/database/db_handler.py, src/config/chatbot_config.py).

Strings are modelled as Lean `String`s / `List Char`; the Python regex
operations used by the code (`re.search(r'\b..\b', ..)`, substring `in`,
`re.sub` with a fixed alternation, `re.match(r'^\d+$', ..)`, and the
`finditer` table scan) are embedded as executable functions on `List Char`
that follow the semantics of the concrete patterns appearing in the source.
ASCII case folding models Python's `str.lower`/`str.upper` on the ASCII
inputs the checks use.  External collaborators (the DeepSeek client and the
MySQL connection) are abstracted as oracle parameters: the generator is a
function from the sent user content to its raw text response, the database
is a function from (query, params) to either rows or an error.
-/

namespace HealthCare

/-- Python `\s` on ASCII: space, tab, newline, carriage return,
vertical tab, form feed. -/
def isWs (c : Char) : Bool :=
  c == ' ' || c == '\t' || c == '\n' || c == '\r' || c == '\x0b' || c == '\x0c'

/-- Python `\w` on ASCII: letters, digits and underscore. -/
def isWordChar (c : Char) : Bool :=
  c.isAlphanum || c == '_'

/-- Python `\d` on ASCII: decimal digits. -/
def isDigitChar (c : Char) : Bool :=
  c.isDigit

/-- `str.lower` on a character list (ASCII model). -/
def lowerL (u : List Char) : List Char :=
  u.map Char.toLower

/-- `str.lower` on a string (ASCII model). -/
def lowerStr (s : String) : String :=
  String.mk (lowerL s.data)

/-- Substring containment, the semantics of Python's `needle in hay`. -/
def containsSub (n : List Char) : List Char → Bool
  | [] => n.isEmpty
  | c :: rest => n.isPrefixOf (c :: rest) || containsSub n rest

/-- One candidate match position for `re.search(r'\b' ++ w ++ r'\b', hay)`
with `w` made of word characters: `w` occurs at index `i` and both sides
are word boundaries. -/
def wholeOccB (w hay : List Char) (i : Nat) : Bool :=
  w.isPrefixOf (hay.drop i) &&
  (i == 0 || !isWordChar (hay.getD (i - 1) ' ')) &&
  (i + w.length == hay.length || !isWordChar (hay.getD (i + w.length) ' '))

/-- `re.search(r'\b' ++ w ++ r'\b', hay) is not None` for a word-character
pattern `w`: some position is a whole-word occurrence. -/
def wholeWordB (w hay : List Char) : Bool :=
  (List.range (hay.length + 1)).any (wholeOccB w hay)

/-- Proposition form: `w` has a whole-word occurrence in `hay`. -/
def hasWholeWordOcc (w hay : List Char) : Prop :=
  ∃ i, wholeOccB w hay i = true

/-- A `PermissionPolicy`: one entry of `ROLE_PERMISSIONS`
(src/config/chatbot_config.py). -/
structure Policy where
  allowedTables : List String
  allowedOperations : List String
  restrictedFields : List String
deriving DecidableEq

/-- `ROLE_PERMISSIONS['patient']`. -/
def patientPerms : Policy :=
  { allowedTables := ["appointments", "doctor", "department", "avalibility", "person"]
    allowedOperations := ["SELECT"]
    restrictedFields := ["password", "contact_info", "address"] }

/-- `ROLE_PERMISSIONS['staff']`. -/
def staffPerms : Policy :=
  { allowedTables := ["appointments", "doctor", "department", "avalibility",
      "inventory", "medical_records", "person"]
    allowedOperations := ["SELECT", "INSERT", "UPDATE"]
    restrictedFields := ["password"] }

/-- `ROLE_PERMISSIONS['doctor']`. -/
def doctorPerms : Policy :=
  { allowedTables := ["appointments", "doctor", "department", "avalibility",
      "medical_records", "person"]
    allowedOperations := ["SELECT", "INSERT", "UPDATE"]
    restrictedFields := ["password"] }

/-- The unconditional blacklist loop of `HealthcareChatbot.is_query_allowed`. -/
def blacklistOps : List String :=
  ["delete", "drop", "truncate", "alter", "grant", "revoke"]

/-- The four canonical DML verbs checked by both lexical gates. -/
def dmlOps : List String :=
  ["select", "insert", "update", "delete"]

/-- `HealthcareChatbot.is_query_allowed` (src/chatbot/chatbot.py:137-169).
Empty query is denied; any blacklisted verb as a substring of the
lowercased query denies; a DML verb present as a substring but absent from
the role's allowed operations denies; the query must whole-word reference
at least one allowed table; a whole-word restricted-field hit denies. -/
def is_query_allowed (p : Policy) (query : String) : Bool :=
  if query.data.isEmpty then false
  else
    let ql := lowerL query.data
    if blacklistOps.any (fun op => containsSub op.data ql) then false
    else if dmlOps.any (fun op =>
        containsSub op.data ql && !((p.allowedOperations.map lowerStr).contains op)) then false
    else
      let allowed := p.allowedTables.any (fun t => wholeWordB (lowerL t.data) ql)
      if p.restrictedFields.any (fun f => wholeWordB (lowerL f.data) ql) then false
      else allowed

/-- One alternative of the table pattern
`from\s+(\w+)|join\s+(\w+)|update\s+(\w+)|into\s+(\w+)`: keyword, at
least one whitespace, then a maximal nonempty word-character run.
Returns the captured identifier and the rest of the input after the match. -/
def tryKw1 (kw u : List Char) : Option (List Char × List Char) :=
  if kw.isPrefixOf u then
    let r := u.drop kw.length
    if (r.takeWhile isWs).isEmpty then none
    else
      let r2 := r.dropWhile isWs
      let tid := r2.takeWhile isWordChar
      if tid.isEmpty then none
      else some (tid, r2.drop tid.length)
  else none

/-- Try the four clause alternatives at the current position, in the
pattern's order (their first letters differ, so order is immaterial). -/
def tryKw (u : List Char) : Option (List Char × List Char) :=
  match tryKw1 "from".data u with
  | some x => some x
  | none =>
    match tryKw1 "join".data u with
    | some x => some x
    | none =>
      match tryKw1 "update".data u with
      | some x => some x
      | none => tryKw1 "into".data u

/-- `re.finditer` of the table pattern, fuelled so that the scan is
structurally recursive (the fuel is the length of the scanned text, which
bounds the number of steps since every step consumes at least one
character): scan left to right; at a match, emit the captured identifier
and continue after the match; otherwise advance one character. -/
def scanTablesF : Nat → List Char → List (List Char)
  | 0, _ => []
  | _, [] => []
  | fuel + 1, c :: rest =>
    match tryKw (c :: rest) with
    | some (tid, rem) => tid :: scanTablesF fuel rem
    | none => scanTablesF fuel rest

/-- The list of table identifiers extracted by
`DeepSeekHandler._verify_query_security`'s `finditer` loop. -/
def scanTables (u : List Char) : List (List Char) :=
  scanTablesF u.length u

/-- `DeepSeekHandler._verify_query_security`
(src/ai/deepseek_handler.py:90-119): empty query denied; a DML verb present
as a substring but not allowed denies; an extracted table reference outside
the allowed tables denies; a whole-word restricted-field hit denies. -/
def verify_query_security (p : Policy) (query : String) : Bool :=
  if query.data.isEmpty then false
  else
    let ql := lowerL query.data
    if dmlOps.any (fun op =>
        containsSub op.data ql && !((p.allowedOperations.map lowerStr).contains op)) then false
    else if (scanTables ql).any (fun t =>
        !((p.allowedTables.map lowerStr).contains (String.mk t))) then false
    else if p.restrictedFields.any (fun f => wholeWordB (lowerL f.data) ql) then false
    else true

/-- Match a literal word of the sanitizer pattern case-insensitively at the
head of the input; return the rest on success.  The pattern words are stored
lowercased, mirroring `(?i)` of `DeepSeekHandler._sanitize_input`. -/
def matchChars : List Char → List Char → Option (List Char)
  | [], u => some u
  | _ :: _, [] => none
  | p :: ps, d :: ds => if Char.toLower d == p then matchChars ps ds else none

/-- Match one alternative of the sanitizer pattern: its words separated by
`\s*` gaps.  A gap is greedy whitespace; since every pattern word starts
with a non-whitespace character, greedy matching coincides with dropping
the maximal whitespace run. -/
def matchAlt : List (List Char) → List Char → Option (List Char)
  | [], u => some u
  | [w], u => matchChars w u
  | w :: w2 :: ws, u =>
    match matchChars w u with
    | none => none
    | some r => matchAlt (w2 :: ws) (r.dropWhile isWs)

/-- The alternation of `DeepSeekHandler._sanitize_input`'s pattern
`(?i)(system\s*prompt|you\s*are\s*a|sql\s*generation|allowed_tables|`
`allowed_operations|User\s*Role:\s*staff|User\s*Role:\s*doctor)`,
each alternative as its `\s*`-separated literal words, lowercased. -/
def altWords : List (List (List Char)) :=
  [ [['s','y','s','t','e','m'], ['p','r','o','m','p','t']],
    [['y','o','u'], ['a','r','e'], ['a']],
    [['s','q','l'], ['g','e','n','e','r','a','t','i','o','n']],
    [['a','l','l','o','w','e','d','_','t','a','b','l','e','s']],
    [['a','l','l','o','w','e','d','_','o','p','e','r','a','t','i','o','n','s']],
    [['u','s','e','r'], ['r','o','l','e',':'], ['s','t','a','f','f']],
    [['u','s','e','r'], ['r','o','l','e',':'], ['d','o','c','t','o','r']] ]

/-- Try the alternatives at the current position in the pattern's order;
first match wins (Python alternation semantics). -/
def tryMatchAlts : List (List (List Char)) → List Char → Option (List Char)
  | [], _ => none
  | a :: as, u =>
    match matchAlt a u with
    | some r => some r
    | none => tryMatchAlts as u

/-- Attempt the whole sanitizer pattern at the current position. -/
def tryMatch (u : List Char) : Option (List Char) :=
  tryMatchAlts altWords u

/-- The replacement marker of `DeepSeekHandler._sanitize_input`. -/
def filteredMarker : List Char := "[FILTERED]".data

/-- `re.sub` of the sanitizer pattern, fuelled so the scan is structurally
recursive (the fuel is the length of the scanned text, which bounds the
number of steps since every match consumes at least one character): scan
left to right; at a match, emit the marker and continue after the match;
otherwise copy one character. -/
def subAuxF : Nat → List Char → List Char
  | 0, _ => []
  | _, [] => []
  | fuel + 1, c :: rest =>
    match tryMatch (c :: rest) with
    | some r => filteredMarker ++ subAuxF fuel r
    | none => c :: subAuxF fuel rest

/-- `DeepSeekHandler._sanitize_input` (src/ai/deepseek_handler.py:83-88). -/
def sanitize_input (text : String) : String :=
  String.mk (subAuxF text.data.length text.data)

/-- A result row of the `dictionary=True` cursor: field name/value pairs. -/
abbrev Row := List (String × String)

/-- The MySQL collaborator, abstracted: a query and optional parameters
either produce rows or raise `mysql.connector.Error` (the error payload). -/
abbrev DbOracle := String → Option (List String) → Except String (List Row)

/-- `DatabaseHandler.execute_query` (src/database/db_handler.py:24-37):
run the query, return the fetched rows; on a database error, log and
return `[]`. -/
def execute_query (db : DbOracle) (query : String) (params : Option (List String)) :
    List Row :=
  match db query params with
  | Except.ok rs => rs
  | Except.error _ => []

/-- Python `str.strip()` (ASCII whitespace model). -/
def pyStrip (u : List Char) : List Char :=
  ((u.dropWhile isWs).reverse.dropWhile isWs).reverse

/-- The refusal sentinel checked by `generated_query.upper().startswith(..)`. -/
def sentinel : List Char := "ACCESS DENIED".data

/-- The pure outcome of `DeepSeekHandler.generate_sql_query`
(src/ai/deepseek_handler.py:25-81) given the raw text the model returned:
strip, return `""` if the stripped text starts (case-insensitively) with
the sentinel, return `""` if `_verify_query_security` rejects it, else
return the stripped text. -/
def generate_sql_query (perms : Policy) (raw : String) : String :=
  let gq := pyStrip raw.data
  if sentinel.isPrefixOf (gq.map Char.toUpper) then ""
  else if !verify_query_security perms (String.mk gq) then ""
  else String.mk gq

/-- Observable events of one request: the generator call (with the user
content sent), the two lexical checks with their verdicts, and a query
handed to `DatabaseHandler.execute_query`. -/
inductive Event where
  | genCall (userContent : String)
  | verifierCheck (query : String) (ok : Bool)
  | gateCheck (query : String) (ok : Bool)
  | dbExec (query : String)
deriving DecidableEq

/-- `DeepSeekHandler.generate_sql_query` with its event trace: the
generator oracle maps the sanitized user content to the raw response. -/
def generate_sql_query_ev (perms : Policy) (gen : String → String) (question : String) :
    String × List Event :=
  let sq := sanitize_input question
  let gq := pyStrip (gen sq).data
  if sentinel.isPrefixOf (gq.map Char.toUpper) then
    ("", [Event.genCall sq])
  else
    let v := verify_query_security perms (String.mk gq)
    (if v then String.mk gq else "",
      [Event.genCall sq, Event.verifierCheck (String.mk gq) v])

/-- The outcomes of `HealthcareChatbot.process_query`: the three invalid-ID
messages, the role denial message, or an answered request carrying the
executed SQL and its results. -/
inductive PQOutcome where
  | invalidPatientId
  | invalidStaffId
  | invalidDoctorId
  | notAllowed
  | answered (sql : String) (results : List Row)
deriving DecidableEq

/-- `re.match(r'^\d+$', s)` semantics: one or more decimal digits anchored
at the start, where `$` matches at the end of the string or just before a
single trailing newline. -/
def reMatchDigitsDollar (s : List Char) : Bool :=
  (List.range (s.length + 1)).any fun k =>
    !(k == 0) && (s.take k).all isDigitChar &&
    (k == s.length || ((k + 1 == s.length) && s.drop k == ['\n']))

/-- `HealthcareChatbot._is_valid_id` (src/chatbot/chatbot.py:125-127). -/
def is_valid_id (s : String) : Bool :=
  reMatchDigitsDollar s.data

/-- `str.isdigit()` (ASCII model): nonempty and all decimal digits. -/
def pyIsdigit (s : String) : Bool :=
  !s.data.isEmpty && s.data.all isDigitChar

/-- `HealthcareChatbot.process_query` (src/chatbot/chatbot.py:32-123),
with its event trace.  The three contextual IDs are validated in order,
each invalid one returning its error message before anything else runs;
valid IDs relevant to the role are appended to the question; the query is
generated, gated by `is_query_allowed`, and only then executed. -/
def process_query (perms : Policy) (role : String) (gen : String → String)
    (db : DbOracle) (question : String)
    (patientId staffId doctorId : Option String) : PQOutcome × List Event :=
  let pStep : Except PQOutcome String :=
    match patientId with
    | none => Except.ok question
    | some pid =>
      if !is_valid_id pid then Except.error PQOutcome.invalidPatientId
      else if role == "patient" || role == "staff" || role == "doctor" then
        Except.ok (question ++ "\nPatient ID: " ++ pid)
      else Except.ok question
  match pStep with
  | Except.error o => (o, [])
  | Except.ok q1 =>
    let sStep : Except PQOutcome String :=
      match staffId with
      | none => Except.ok q1
      | some sid =>
        if !is_valid_id sid then Except.error PQOutcome.invalidStaffId
        else if role == "staff" then Except.ok (q1 ++ "\nStaff ID: " ++ sid)
        else Except.ok q1
    match sStep with
    | Except.error o => (o, [])
    | Except.ok q2 =>
      let dStep : Except PQOutcome String :=
        match doctorId with
        | none => Except.ok q2
        | some did =>
          if !is_valid_id did then Except.error PQOutcome.invalidDoctorId
          else if role == "doctor" || role == "staff" then
            Except.ok (q2 ++ "\nDoctor ID: " ++ did)
          else Except.ok q2
      match dStep with
      | Except.error o => (o, [])
      | Except.ok q3 =>
        let ge := generate_sql_query_ev perms gen q3
        let gateOk := is_query_allowed perms ge.1
        let ev2 := ge.2 ++ [Event.gateCheck ge.1 gateOk]
        if !gateOk then (PQOutcome.notAllowed, ev2)
        else
          (PQOutcome.answered ge.1 (execute_query db ge.1 none),
            ev2 ++ [Event.dbExec ge.1])

/-- The f-string template `patient_query` of
`HealthcareChatbot.get_patient_medical_advice` (src/chatbot/chatbot.py:185-191). -/
def patient_query (pid : String) : String :=
  "\n            SELECT p.name, p.gender, p.age, p.birthdate, p.contact_info, \n                  pt.weight, pt.height\n            FROM person p\n            JOIN patient pt ON p.person_id = pt.patient_id\n            WHERE p.person_id = " ++ pid ++ ";\n            "

/-- The f-string template `records_query` (src/chatbot/chatbot.py:204-212). -/
def records_query (pid : String) : String :=
  "\n            SELECT mr.record_id, mr.diagnosis, mr.bloodpressure, mr.date,\n                  d.name as department_name, t.name as treatment_name\n            FROM medical_records mr\n            JOIN department d ON mr.department_id = d.department_id\n            JOIN treatement t ON mr.treatement_id = t.treatement_id\n            WHERE mr.patient_id = " ++ pid ++ "\n            ORDER BY mr.date DESC;\n            "

/-- The f-string template `doctor_query` (src/chatbot/chatbot.py:225-231). -/
def doctor_query (pid : String) : String :=
  "\n            SELECT DISTINCT p.name as doctor_name, d.specialization\n            FROM appointments a\n            JOIN doctor d ON a.doctor_id = d.doctor_id\n            JOIN person p ON d.doctor_id = p.person_id\n            WHERE a.patient_id = " ++ pid ++ ";\n            "

/-- The outcomes of `HealthcareChatbot.get_patient_medical_advice`. -/
inductive GPMAOutcome where
  | invalidId
  | permissionDenied
  | noPatient (pid : String)
  | noRecords
  | advice (info : Row) (records doctors : List Row)
deriving DecidableEq

/-- `HealthcareChatbot.get_patient_medical_advice`
(src/chatbot/chatbot.py:171-261), with its event trace.  Note that the
three template queries are handed to `execute_query` directly: neither
`_verify_query_security` nor `is_query_allowed` is consulted, and the
role's `Policy` is not even an input of this operation. -/
def get_patient_medical_advice (role : String) (pid : String) (db : DbOracle) :
    GPMAOutcome × List Event :=
  if !is_valid_id pid then (GPMAOutcome.invalidId, [])
  else if !(role == "doctor" || role == "staff") && !pyIsdigit pid then
    (GPMAOutcome.permissionDenied, [])
  else
    let q1 := patient_query pid
    let info := execute_query db q1 none
    if info.isEmpty then (GPMAOutcome.noPatient pid, [Event.dbExec q1])
    else
      let q2 := records_query pid
      let recs := execute_query db q2 none
      if recs.isEmpty then (GPMAOutcome.noRecords, [Event.dbExec q1, Event.dbExec q2])
      else
        let q3 := doctor_query pid
        let docs := execute_query db q3 none
        (GPMAOutcome.advice (info.headD []) recs docs,
          [Event.dbExec q1, Event.dbExec q2, Event.dbExec q3])

/-- The checks-before-execution property of claim C1: whenever a query is
handed to the database executor, both the Verifier and the Gate approved
that exact text earlier in the trace. -/
def checksPrecedeExec (tr : List Event) : Prop :=
  ∀ pre q suf, tr = pre ++ Event.dbExec q :: suf →
    Event.verifierCheck q true ∈ pre ∧ Event.gateCheck q true ∈ pre

/-- A database oracle that always succeeds with one row (used for concrete
instantiations). -/
def okDb : DbOracle := fun _ _ => Except.ok [[("x", "1")]]

/-- No suffix of `m` begins with a sanitizer-pattern match: a second
substitution pass over `m` finds nothing. -/
def cleanList (m : List Char) : Prop :=
  ∀ v, v <:+ m → tryMatch v = none

example : is_query_allowed patientPerms "SELECT name FROM person;" = true := by decide
example : is_query_allowed patientPerms "DELETE FROM person" = false := by decide
example : is_query_allowed patientPerms "SELECT password FROM person" = false := by decide
example : verify_query_security patientPerms "select a from *" = true := by decide
example : verify_query_security patientPerms "select a from secrets" = false := by decide
example : scanTables (lowerL "select a from secrets".data) = ["secrets".data] := by decide

theorem containsSub_of_prefix_drop {n : List Char} :
    ∀ {hay : List Char} {i : Nat}, n.isPrefixOf (hay.drop i) = true →
    containsSub n hay = true := by
  intro hay
  induction hay with
  | nil =>
    intro i h
    simp only [List.drop_nil] at h
    have : n = [] := List.prefix_nil.mp (List.isPrefixOf_iff_prefix.mp h)
    simp [containsSub, this]
  | cons c rest ih =>
    intro i h
    cases i with
    | zero =>
      simp only [List.drop_zero] at h
      simp [containsSub, h]
    | succ j =>
      simp only [List.drop_succ_cons] at h
      simp [containsSub, ih h]

theorem wholeOccB_isPrefixOf {w hay : List Char} {i : Nat}
    (h : wholeOccB w hay i = true) : w.isPrefixOf (hay.drop i) = true := by
  unfold wholeOccB at h
  simp only [Bool.and_eq_true] at h
  exact h.1.1

theorem hasWholeWordOcc_of_wholeWordB {w hay : List Char}
    (h : wholeWordB w hay = true) : hasWholeWordOcc w hay := by
  obtain ⟨i, _, hocc⟩ := List.any_eq_true.mp h
  exact ⟨i, hocc⟩

theorem wholeWordB_of_hasWholeWordOcc {w hay : List Char} (hw : w ≠ [])
    (h : hasWholeWordOcc w hay) : wholeWordB w hay = true := by
  obtain ⟨i, hocc⟩ := h
  have hle : i ≤ hay.length := by
    by_contra hgt
    have hdrop : hay.drop i = [] := List.drop_eq_nil_of_le (by omega)
    have hpre := wholeOccB_isPrefixOf hocc
    rw [hdrop] at hpre
    exact hw (List.prefix_nil.mp (List.isPrefixOf_iff_prefix.mp hpre))
  exact List.any_eq_true.mpr ⟨i, List.mem_range.mpr (by omega), hocc⟩

theorem containsSub_of_hasWholeWordOcc {w hay : List Char}
    (h : hasWholeWordOcc w hay) : containsSub w hay = true := by
  obtain ⟨i, hocc⟩ := h
  exact containsSub_of_prefix_drop (wholeOccB_isPrefixOf hocc)

theorem tryKw_cases {u t rem : List Char} (h : tryKw u = some (t, rem)) :
    tryKw1 "from".data u = some (t, rem) ∨ tryKw1 "join".data u = some (t, rem) ∨
    tryKw1 "update".data u = some (t, rem) ∨ tryKw1 "into".data u = some (t, rem) := by
  unfold tryKw at h
  cases h1 : tryKw1 "from".data u with
  | some x => simp only [h1] at h; exact Or.inl h
  | none =>
    simp only [h1] at h
    cases h2 : tryKw1 "join".data u with
    | some x => simp only [h2] at h; exact Or.inr (Or.inl h)
    | none =>
      simp only [h2] at h
      cases h3 : tryKw1 "update".data u with
      | some x => simp only [h3] at h; exact Or.inr (Or.inr (Or.inl h))
      | none =>
        simp only [h3] at h
        exact Or.inr (Or.inr (Or.inr h))

theorem tryKw1_ident_shape {w u t r2 : List Char}
    (hw : tryKw1 w u = some (t, r2)) : t ≠ [] ∧ t.all isWordChar = true := by
  unfold tryKw1 at hw
  split at hw
  · dsimp only at hw
    split at hw
    · exact absurd hw (by simp)
    · split at hw
      · exact absurd hw (by simp)
      · next hne =>
        simp only [Option.some.injEq, Prod.mk.injEq] at hw
        have ht : t = ((u.drop w.length).dropWhile isWs).takeWhile isWordChar :=
          hw.1.symm
        constructor
        · intro hnil
          rw [hnil] at ht
          exact hne (by simp [← ht])
        · rw [ht]
          exact List.all_eq_true.mpr fun x hx => List.mem_takeWhile_imp hx
  · exact absurd hw (by simp)

/-- C8: if the database collaborator raises an execution error then
`execute_query` returns the empty result sequence `[]`, for every query
text and parameter tuple; the raw error payload does not occur in the
returned value. -/
theorem execute_query_error_empty (db : DbOracle) (query : String)
    (params : Option (List String)) (e : String)
    (h : db query params = Except.error e) :
    execute_query db query params = [] := by
  unfold execute_query
  rw [h]

theorem execute_query_error_empty_witness :
    execute_query (fun _ _ => Except.error "Error executing query") "SELECT 1" none = [] :=
  execute_query_error_empty _ "SELECT 1" none "Error executing query" rfl

/-- C6 counterexample: the generator's sentinel refusal is NOT reported
distinctly.  `generate_sql_query` collapses the sentinel refusal, a
policy-side denial (here: `DELETE` for the patient role) and an empty
response into the same value `""`; no `GeneratorRefused` reason exists. -/
theorem generator_refusal_not_distinct :
    generate_sql_query patientPerms "ACCESS DENIED" = "" ∧
    generate_sql_query patientPerms "DELETE FROM person;" = "" ∧
    generate_sql_query patientPerms "" = "" := by
  refine ⟨by decide, by decide, by decide⟩

/-- C6 amended: when the raw response begins, case-insensitively, with the
sentinel `ACCESS DENIED` (after stripping), the outcome is a denial in the
only form the code has — `generate_sql_query` returns the empty string,
skipping the verifier; the caller cannot distinguish this from a
policy-side denial or an empty response, which yield the same value. -/
theorem generator_refusal_yields_empty (perms : Policy) (raw : String)
    (h : sentinel.isPrefixOf ((pyStrip raw.data).map Char.toUpper) = true) :
    generate_sql_query perms raw = "" := by
  unfold generate_sql_query
  simp [h]

theorem generator_refusal_yields_empty_witness :
    generate_sql_query patientPerms "access denied: not allowed" = "" :=
  generator_refusal_yields_empty patientPerms "access denied: not allowed" (by decide)

/-- C3 counterexample: `FROM` followed by an unclassifiable token (the
wildcard `*`) is NOT treated as not-allowed.  The extraction finds no
identifier there and `_verify_query_security` accepts the query for the
patient policy — it fails open, not closed. -/
theorem verifier_accepts_unclassifiable_table_ref :
    verify_query_security patientPerms "select a from *" = true ∧
    scanTables (lowerL "select a from *".data) = [] := by
  refine ⟨by decide, by decide⟩

theorem mem_scanTablesF_wordRun :
    ∀ (fuel : Nat) (u t : List Char), t ∈ scanTablesF fuel u →
    t ≠ [] ∧ t.all isWordChar = true := by
  intro fuel
  induction fuel with
  | zero => intro u t h; simp [scanTablesF] at h
  | succ f ih =>
    intro u t h
    match u with
    | [] => simp [scanTablesF] at h
    | c :: rest =>
      rw [scanTablesF] at h
      cases hk : tryKw (c :: rest) with
      | none =>
        rw [hk] at h
        exact ih rest t h
      | some x =>
        rw [hk] at h
        obtain ⟨tid, rem⟩ := x
        simp only [List.mem_cons] at h
        cases h with
        | inr hmem => exact ih rem t hmem
        | inl heq =>
          subst heq
          rcases tryKw_cases hk with hw | hw | hw | hw <;>
            exact tryKw1_ident_shape hw

/-- C3 amended: the table-reference extraction only ever yields plain
identifiers (nonempty maximal `\w+` runs); a clause keyword followed by a
token that cannot be classified as such contributes nothing and causes no
denial (fail-open).  Denial on the table ground happens exactly when some
extracted identifier lies outside the policy's allowed tables: then
`_verify_query_security` returns false. -/
theorem verifier_table_extraction_fail_open :
    (∀ (fuel : Nat) (u t : List Char), t ∈ scanTablesF fuel u →
      t ≠ [] ∧ t.all isWordChar = true) ∧
    (∀ (p : Policy) (q : String) (t : List Char),
      t ∈ scanTables (lowerL q.data) →
      (p.allowedTables.map lowerStr).contains (String.mk t) = false →
      verify_query_security p q = false) := by
  constructor
  · exact mem_scanTablesF_wordRun
  · intro p q t hmem hnot
    unfold verify_query_security
    split
    · rfl
    · next hne =>
      dsimp only
      split
      · rfl
      · have hany : (scanTables (lowerL q.data)).any (fun t =>
            !((p.allowedTables.map lowerStr).contains (String.mk t))) = true :=
          List.any_eq_true.mpr ⟨t, hmem, by rw [hnot]; rfl⟩
        rw [if_pos hany]

theorem verifier_table_extraction_fail_open_witness :
    verify_query_security patientPerms "select a from secrets" = false :=
  verifier_table_extraction_fail_open.2 patientPerms "select a from secrets"
    "secrets".data (by decide) (by decide)

theorem is_valid_id_characterization (s : String) :
    is_valid_id s = true ↔
      (s.data ≠ [] ∧ s.data.all isDigitChar = true) ∨
      (∃ t, s.data = t ++ ['\n'] ∧ t ≠ [] ∧ t.all isDigitChar = true) := by
  unfold is_valid_id reMatchDigitsDollar
  rw [List.any_eq_true]
  constructor
  · rintro ⟨k, hk, hcond⟩
    rw [List.mem_range] at hk
    simp only [Bool.and_eq_true, Bool.or_eq_true, beq_iff_eq, Bool.not_eq_true',
      beq_eq_false_iff_ne, ne_eq] at hcond
    obtain ⟨⟨hk0, hall⟩, hend⟩ := hcond
    cases hend with
    | inl hlen =>
      left
      subst hlen
      rw [List.take_length] at hall
      exact ⟨fun hnil => hk0 (by simp [hnil]), hall⟩
    | inr hnl =>
      right
      refine ⟨s.data.take k, ?_, ?_, hall⟩
      · have hsplit := List.take_append_drop k s.data
        rw [hnl.2] at hsplit
        exact hsplit.symm
      · intro hnil
        have := congrArg List.length hnil
        rw [List.length_take] at this
        simp only [List.length_nil] at this
        omega
  · rintro (⟨hne, hall⟩ | ⟨t, heq, htne, hall⟩)
    · refine ⟨s.data.length, List.mem_range.mpr (by omega), ?_⟩
      simp only [Bool.and_eq_true, Bool.or_eq_true, beq_iff_eq, Bool.not_eq_true',
        beq_eq_false_iff_ne, ne_eq]
      refine ⟨⟨?_, by rw [List.take_length]; exact hall⟩, Or.inl trivial⟩
      intro h0
      exact hne (List.length_eq_zero.mp h0)
    · refine ⟨t.length, List.mem_range.mpr ?_, ?_⟩
      · rw [heq, List.length_append]; simp only [List.length_cons, List.length_nil]; omega
      · simp only [Bool.and_eq_true, Bool.or_eq_true, beq_iff_eq, Bool.not_eq_true',
          beq_eq_false_iff_ne, ne_eq]
        refine ⟨⟨?_, ?_⟩, Or.inr ⟨?_, ?_⟩⟩
        · intro h0
          exact htne (List.length_eq_zero.mp h0)
        · rw [heq, List.take_left]; exact hall
        · rw [heq, List.length_append]; simp
        · rw [heq, List.drop_left]

/-- C7 counterexample: `_is_valid_id` is NOT equivalent to "consists
entirely of decimal digits": Python's `$` also matches just before a single
trailing newline, so `"123\n"` passes the check while containing a
non-digit character. -/
theorem valid_id_not_all_digits :
    is_valid_id "123\n" = true ∧ "123\n".data.all isDigitChar = false := by
  refine ⟨by decide, by decide⟩

/-- C7 amended: `_is_valid_id` accepts exactly the nonempty all-digit
strings optionally followed by one trailing newline (the `$`-before-final-
newline semantics of `re.match(r'^\d+$', ..)`); and whenever a supplied
contextual ID fails the check, `process_query` returns the corresponding
error message with an empty event trace — the generator is never called
and no query is attempted. -/
theorem valid_id_shape_and_early_reject :
    (∀ s : String, is_valid_id s = true ↔
      (s.data ≠ [] ∧ s.data.all isDigitChar = true) ∨
      (∃ t, s.data = t ++ ['\n'] ∧ t ≠ [] ∧ t.all isDigitChar = true)) ∧
    (∀ (perms : Policy) (role : String) (gen : String → String) (db : DbOracle)
      (question pid : String) (staffId doctorId : Option String),
      is_valid_id pid = false →
      process_query perms role gen db question (some pid) staffId doctorId =
        (PQOutcome.invalidPatientId, [])) ∧
    (∀ (perms : Policy) (role : String) (gen : String → String) (db : DbOracle)
      (question sid : String) (doctorId : Option String),
      is_valid_id sid = false →
      process_query perms role gen db question none (some sid) doctorId =
        (PQOutcome.invalidStaffId, [])) ∧
    (∀ (perms : Policy) (role : String) (gen : String → String) (db : DbOracle)
      (question did : String),
      is_valid_id did = false →
      process_query perms role gen db question none none (some did) =
        (PQOutcome.invalidDoctorId, [])) := by
  refine ⟨is_valid_id_characterization, ?_, ?_, ?_⟩
  · intro perms role gen db question pid staffId doctorId h
    simp [process_query, h]
  · intro perms role gen db question sid doctorId h
    simp [process_query, h]
  · intro perms role gen db question did h
    simp [process_query, h]

theorem valid_id_shape_and_early_reject_witness :
    process_query patientPerms "patient" (fun _ => "SELECT 1") okDb
      "what are my appointments" (some "12a") none none =
      (PQOutcome.invalidPatientId, []) :=
  valid_id_shape_and_early_reject.2.1 patientPerms "patient" (fun _ => "SELECT 1")
    okDb "what are my appointments" "12a" none none (by decide)

/-- C10 counterexample: the permission-denial branch of
`get_patient_medical_advice` is reachable with an ID that passes
`_is_valid_id`: for `patient_id = "123\n"` the validity check succeeds
(`$` matches before the trailing newline) while `isdigit()` is false, so a
caller with role `patient` receives the permission denial. -/
theorem permission_branch_reachable :
    (get_patient_medical_advice "patient" "123\n" okDb).1 =
      GPMAOutcome.permissionDenied ∧
    is_valid_id "123\n" = true := by
  refine ⟨by decide, by decide⟩

/-- C10 amended: for every patient ID that consists entirely of decimal
digits (nonempty, no trailing newline), the permission-denial branch is
unreachable for every role: the ID passes both `_is_valid_id` and
`isdigit()`, so the operation proceeds past both early returns to fetch
the patient's records. -/
theorem permission_branch_unreachable_for_digit_ids
    (role pid : String) (db : DbOracle)
    (h1 : pid.data ≠ []) (h2 : pid.data.all isDigitChar = true) :
    (get_patient_medical_advice role pid db).1 ≠ GPMAOutcome.invalidId ∧
    (get_patient_medical_advice role pid db).1 ≠ GPMAOutcome.permissionDenied := by
  have hv : is_valid_id pid = true :=
    (is_valid_id_characterization pid).mpr (Or.inl ⟨h1, h2⟩)
  have hd : pyIsdigit pid = true := by
    unfold pyIsdigit
    rw [h2]
    simp [List.isEmpty_iff, h1]
  unfold get_patient_medical_advice
  rw [hv, hd]
  simp only [Bool.not_true, Bool.and_false, Bool.false_and]
  constructor <;>
  · split
    · simp_all
    · split
      · simp_all
      · split
        · simp
        · simp

theorem permission_branch_unreachable_for_digit_ids_witness :
    (get_patient_medical_advice "patient" "7" okDb).1 ≠ GPMAOutcome.invalidId ∧
    (get_patient_medical_advice "patient" "7" okDb).1 ≠
      GPMAOutcome.permissionDenied :=
  permission_branch_unreachable_for_digit_ids "patient" "7" okDb
    (by decide) (by decide)

/-- C2: for every `PermissionPolicy` — including one misconfigured to grant
a destructive verb in `allowedOperations` — and every query containing one
of delete/drop/truncate/alter/grant/revoke as a case-insensitive token
(whole word), the Gate `is_query_allowed` returns false: the blacklist loop
runs before and independently of every policy-derived check. -/
theorem gate_blacklist_overrides_policy (p : Policy) (q v : String)
    (hv : v ∈ blacklistOps)
    (hocc : hasWholeWordOcc v.data (lowerL q.data)) :
    is_query_allowed p q = false := by
  have hsub : containsSub v.data (lowerL q.data) = true :=
    containsSub_of_hasWholeWordOcc hocc
  unfold is_query_allowed
  split
  · rfl
  · dsimp only
    have hany : blacklistOps.any (fun op => containsSub op.data (lowerL q.data)) = true :=
      List.any_eq_true.mpr ⟨v, hv, hsub⟩
    rw [if_pos hany]

theorem gate_blacklist_overrides_policy_witness :
    is_query_allowed ⟨["person"], ["SELECT", "DELETE"], []⟩ "DELETE FROM person" = false :=
  gate_blacklist_overrides_policy ⟨["person"], ["SELECT", "DELETE"], []⟩
    "DELETE FROM person" "delete" (by decide) ⟨0, by decide⟩

/-- C9: positive table confirmation in the Gate: for every policy and every
query text with no whole-word occurrence of any element of
`allowedTables`, `is_query_allowed` returns false — a query that avoids
all disallowed tables but references no recognizable allowed table at all
is denied. -/
theorem gate_requires_allowed_table (p : Policy) (q : String)
    (h : ∀ t ∈ p.allowedTables, ¬ hasWholeWordOcc (lowerL t.data) (lowerL q.data)) :
    is_query_allowed p q = false := by
  unfold is_query_allowed
  split
  · rfl
  · dsimp only
    split
    · rfl
    · split
      · rfl
      · split
        · rfl
        · rw [List.any_eq_false]
          intro t ht hB
          exact h t ht (hasWholeWordOcc_of_wholeWordB hB)

theorem gate_requires_allowed_table_witness :
    is_query_allowed patientPerms "SELECT 1;" = false :=
  gate_requires_allowed_table patientPerms "SELECT 1;" (by
    intro t ht hocc
    have hB := wholeWordB_of_hasWholeWordOcc (by
      fin_cases ht <;> decide) hocc
    fin_cases ht <;> revert hB <;> decide)

/-- C4: restricted-field matching is whole-word in both lexical checks.
For every role policy and every field F in its `restrictedFields`:
(1) a whole-word occurrence of F (case-insensitive) makes both
`is_query_allowed` and `_verify_query_security` return false;
(2) if every occurrence of F in the query is flanked by a word character
(i.e. F appears only as a substring of a longer identifier), then the
F-clause `re.search(r'\b'+F+r'\b', query_lower)` of each check's
restricted-field loop — embedded here as `wholeWordB` — does not fire, so
neither check denies on the restricted-field ground for F. -/
theorem restricted_field_whole_word (p : Policy) (q F : String)
    (hp : p = patientPerms ∨ p = staffPerms ∨ p = doctorPerms)
    (hF : F ∈ p.restrictedFields) :
    (hasWholeWordOcc (lowerL F.data) (lowerL q.data) →
      is_query_allowed p q = false ∧ verify_query_security p q = false) ∧
    ((∀ i < (lowerL q.data).length,
        (lowerL F.data).isPrefixOf ((lowerL q.data).drop i) = true →
        (i ≠ 0 ∧ isWordChar ((lowerL q.data).getD (i - 1) ' ') = true) ∨
        (i + (lowerL F.data).length ≠ (lowerL q.data).length ∧
          isWordChar ((lowerL q.data).getD (i + (lowerL F.data).length) ' ') = true)) →
      wholeWordB (lowerL F.data) (lowerL q.data) = false) := by
  have hFne : lowerL F.data ≠ [] := by
    rcases hp with rfl | rfl | rfl <;> fin_cases hF <;> decide
  constructor
  · intro hocc
    have hB : wholeWordB (lowerL F.data) (lowerL q.data) = true :=
      wholeWordB_of_hasWholeWordOcc hFne hocc
    have hany : p.restrictedFields.any
        (fun f => wholeWordB (lowerL f.data) (lowerL q.data)) = true :=
      List.any_eq_true.mpr ⟨F, hF, hB⟩
    constructor
    · simp [is_query_allowed, hany]
    · simp [verify_query_security, hany]
  · intro hflank
    by_contra hB
    rw [Bool.not_eq_false] at hB
    obtain ⟨i, hocc⟩ := hasWholeWordOcc_of_wholeWordB hB
    unfold wholeOccB at hocc
    simp only [Bool.and_eq_true, Bool.or_eq_true, beq_iff_eq,
      Bool.not_eq_true'] at hocc
    obtain ⟨⟨hpre, hleft⟩, hright⟩ := hocc
    have hlen : i < (lowerL q.data).length := by
      by_contra hge
      have hdrop : (lowerL q.data).drop i = [] := List.drop_eq_nil_of_le (by omega)
      rw [hdrop] at hpre
      exact hFne (List.prefix_nil.mp (List.isPrefixOf_iff_prefix.mp hpre))
    rcases hflank i hlen hpre with ⟨hi0, hw⟩ | ⟨hilen, hw⟩
    · rcases hleft with h0 | hnw
      · exact hi0 h0
      · rw [hw] at hnw; exact absurd hnw (by simp)
    · rcases hright with h0 | hnw
      · exact hilen h0
      · rw [hw] at hnw; exact absurd hnw (by simp)

theorem restricted_field_whole_word_witness :
    (is_query_allowed patientPerms "SELECT password FROM person" = false ∧
      verify_query_security patientPerms "SELECT password FROM person" = false) ∧
    wholeWordB (lowerL "password".data)
      (lowerL "SELECT name FROM person JOIN password_reset_log x".data) = false := by
  constructor
  · exact (restricted_field_whole_word patientPerms "SELECT password FROM person"
      "password" (Or.inl rfl) (by decide)).1 ⟨7, by decide⟩
  · exact (restricted_field_whole_word patientPerms
      "SELECT name FROM person JOIN password_reset_log x"
      "password" (Or.inl rfl) (by decide)).2 (by decide)

theorem checksPrecedeExec_of_no_exec (tr : List Event)
    (h : ∀ q, Event.dbExec q ∉ tr) : checksPrecedeExec tr := by
  intro pre q suf heq
  exact absurd (by
    rw [heq]
    exact List.mem_append_right _ (List.mem_cons_self _ _)) (h q)

theorem checksPrecedeExec_canonical (a b : String) :
    checksPrecedeExec [Event.genCall a, Event.verifierCheck b true,
      Event.gateCheck b true, Event.dbExec b] := by
  intro pre q suf heq
  rcases pre with _ | ⟨e1, _ | ⟨e2, _ | ⟨e3, _ | ⟨e4, pre⟩⟩⟩⟩ <;> simp_all
  obtain ⟨h1, h2, h3, hq, hsuf⟩ := heq
  subst hq
  exact ⟨Or.inr (Or.inl h2), Or.inr (Or.inr h3)⟩

theorem gen_ev_no_exec (perms : Policy) (gen : String → String) (q : String) :
    ∀ s, Event.dbExec s ∉ (generate_sql_query_ev perms gen q).2 := by
  intro s
  unfold generate_sql_query_ev
  dsimp only
  split <;> simp

theorem gen_ev_cases (perms : Policy) (gen : String → String) (q : String) :
    (generate_sql_query_ev perms gen q).1 = "" ∨
    (generate_sql_query_ev perms gen q).2 =
      [Event.genCall (sanitize_input q),
        Event.verifierCheck (generate_sql_query_ev perms gen q).1 true] := by
  unfold generate_sql_query_ev
  dsimp only
  split
  · exact Or.inl rfl
  · dsimp only
    by_cases hv : verify_query_security perms
        (String.mk (pyStrip (gen (sanitize_input q)).data)) = true
    · right
      simp [hv]
    · left
      simp [hv]

theorem is_query_allowed_empty (p : Policy) : is_query_allowed p "" = false := by
  unfold is_query_allowed
  simp

set_option maxRecDepth 8192 in
/-- C1 counterexample: `get_patient_medical_advice` hands its first
template query to the database executor without either lexical check: its
trace contains a `dbExec` event with no preceding `verifierCheck` or
`gateCheck`.  (The operation does not even take the policy as input.) -/
theorem gpma_executes_unchecked :
    ¬ checksPrecedeExec (get_patient_medical_advice "doctor" "1" okDb).2 := by
  intro h
  have htr : (get_patient_medical_advice "doctor" "1" okDb).2 =
      [Event.dbExec (patient_query "1"), Event.dbExec (records_query "1"),
        Event.dbExec (doctor_query "1")] := by decide
  have hmem := h [] (patient_query "1")
    [Event.dbExec (records_query "1"), Event.dbExec (doctor_query "1")]
    (by rw [htr]; rfl)
  exact absurd hmem.1 (List.not_mem_nil _)

/-- C1 amended: in `process_query`, every query handed to
`DatabaseHandler.execute_query` has been approved by both the Verifier
(`_verify_query_security`, inside `generate_sql_query`) and the Gate
(`is_query_allowed`) on that exact text earlier in the trace; but
`get_patient_medical_advice` executes its three template queries with no
check at all, so the claim does not hold of every chatbot operation. -/
theorem process_query_checks_precede_exec (perms : Policy) (role : String)
    (gen : String → String) (db : DbOracle) (question : String)
    (patientId staffId doctorId : Option String) :
    checksPrecedeExec
      (process_query perms role gen db question patientId staffId doctorId).2 := by
  unfold process_query
  try dsimp only
  split
  · exact checksPrecedeExec_of_no_exec [] (by simp)
  · split
    · exact checksPrecedeExec_of_no_exec [] (by simp)
    · split
      · exact checksPrecedeExec_of_no_exec [] (by simp)
      · next q3 hq3 =>
        try dsimp only
        by_cases hg : is_query_allowed perms (generate_sql_query_ev perms gen q3).1 = true
        · rcases gen_ev_cases perms gen q3 with h1 | h2
          · rw [h1] at hg
            rw [is_query_allowed_empty] at hg
            exact absurd hg (by simp)
          · rw [hg]
            simp only [Bool.not_true, if_false]
            rw [h2]
            exact checksPrecedeExec_canonical (sanitize_input q3)
              (generate_sql_query_ev perms gen q3).1
        · rw [Bool.not_eq_true] at hg
          rw [hg]
          simp only [Bool.not_false, if_true]
          apply checksPrecedeExec_of_no_exec
          intro s
          simp only [List.mem_append, List.mem_singleton]
          rintro (hmem | hbad)
          · exact gen_ev_no_exec perms gen q3 s hmem
          · exact absurd hbad (by simp)

theorem toLower_of_isWs {c : Char} (h : isWs c = true) : Char.toLower c = c := by
  simp only [isWs, Bool.or_eq_true, beq_iff_eq] at h
  rcases h with ((((h | h) | h) | h) | h) | h <;> subst h <;> decide

theorem isWs_false_of_match {d p : Char} (hm : Char.toLower d = p)
    (hp : isWs p = false) : isWs d = false := by
  by_contra hd
  rw [Bool.not_eq_false] at hd
  rw [toLower_of_isWs hd] at hm
  rw [hm] at hd
  rw [hd] at hp
  exact absurd hp (by simp)

theorem ne_bracket_of_match {d p : Char} (hm : Char.toLower d = p)
    (hp : p ≠ '\x5b') : d ≠ '\x5b' := by
  intro hd
  subst hd
  exact hp (by rw [← hm]; decide)

theorem ws_ne_bracket {c : Char} (h : isWs c = true) : c ≠ '\x5b' := by
  intro hc
  subst hc
  exact absurd h (by decide)

theorem matchChars_split (w : List Char)
    (hw : ∀ p ∈ w, isWs p = false ∧ p ≠ '\x5b') :
    ∀ u r, matchChars w u = some r →
    ∃ pre, u = pre ++ r ∧ pre.length = w.length ∧
      (∀ c ∈ pre, isWs c = false ∧ c ≠ '\x5b') ∧
      (∀ x, matchChars w (pre ++ x) = some x) := by
  induction w with
  | nil =>
    intro u r h
    simp only [matchChars, Option.some.injEq] at h
    subst h
    exact ⟨[], rfl, rfl, by simp, fun x => rfl⟩
  | cons p ps ih =>
    intro u r h
    match u with
    | [] => exact absurd h (by simp [matchChars])
    | d :: ds =>
      rw [matchChars] at h
      split at h
      · next hbeq =>
        have hdp : Char.toLower d = p := beq_iff_eq.mp hbeq
        have hpw : isWs p = false ∧ p ≠ '\x5b' := hw p (by simp)
        have hpsw : ∀ q ∈ ps, isWs q = false ∧ q ≠ '\x5b' :=
          fun q hq => hw q (by simp [hq])
        obtain ⟨pre, hds, hlen, hchars, hreplay⟩ := ih hpsw ds r h
        refine ⟨d :: pre, by rw [List.cons_append, hds], by simp [hlen], ?_, ?_⟩
        · intro c hc
          rcases List.mem_cons.mp hc with rfl | hc'
          · exact ⟨isWs_false_of_match hdp hpw.1, ne_bracket_of_match hdp hpw.2⟩
          · exact hchars c hc'
        · intro x
          rw [List.cons_append, matchChars, if_pos hbeq]
          exact hreplay x
      · exact absurd h (by simp)

theorem dropWhile_ws_append (a : List Char) (ha : ∀ c ∈ a, isWs c = true)
    (d : Char) (hd : isWs d = false) (b : List Char) :
    (a ++ d :: b).dropWhile isWs = d :: b := by
  induction a with
  | nil => simp [List.dropWhile, hd]
  | cons x a' ih =>
    rw [List.cons_append, List.dropWhile]
    rw [ha x (by simp)]
    exact ih fun c hc => ha c (by simp [hc])

theorem matchAlt_split :
    ∀ (alt : List (List Char)), alt ≠ [] →
    (∀ w ∈ alt, w ≠ [] ∧ ∀ p ∈ w, isWs p = false ∧ p ≠ '\x5b') →
    ∀ u r, matchAlt alt u = some r →
    ∃ d pre, u = (d :: pre) ++ r ∧ isWs d = false ∧
      (∀ c ∈ d :: pre, c ≠ '\x5b') ∧
      (∀ x, matchAlt alt ((d :: pre) ++ x) = some x) := by
  intro alt
  induction alt with
  | nil => intro h; exact absurd rfl h
  | cons w tail ih =>
    intro _ hwords u r h
    obtain ⟨hwne, hwchars⟩ := hwords w (by simp)
    cases tail with
    | nil =>
      rw [show matchAlt [w] u = matchChars w u from rfl] at h
      obtain ⟨pre, hu, hlen, hchars, hreplay⟩ := matchChars_split w hwchars u r h
      cases pre with
      | nil =>
        exfalso
        rw [List.length_nil] at hlen
        exact hwne (List.length_eq_zero.mp hlen.symm)
      | cons d pre' =>
        refine ⟨d, pre', hu, (hchars d (by simp)).1, ?_, ?_⟩
        · exact fun c hc => (hchars c hc).2
        · intro x
          exact hreplay x
    | cons w2 ws =>
      rw [show matchAlt (w :: w2 :: ws) u =
        (match matchChars w u with
          | none => none
          | some r1 => matchAlt (w2 :: ws) (r1.dropWhile isWs)) from rfl] at h
      cases hm : matchChars w u with
      | none => rw [hm] at h; exact absurd h (by simp)
      | some r1 =>
        rw [hm] at h
        obtain ⟨pre1, hu1, hlen1, hchars1, hreplay1⟩ :=
          matchChars_split w hwchars u r1 hm
        have htail : (w2 :: ws) ≠ [] := by simp
        have htailwords : ∀ w' ∈ w2 :: ws, w' ≠ [] ∧
            ∀ p ∈ w', isWs p = false ∧ p ≠ '\x5b' :=
          fun w' hw' => hwords w' (by simp [hw'])
        obtain ⟨d2, pre2, hr1, hd2, hbr2, hreplay2⟩ :=
          ih htail htailwords (r1.dropWhile isWs) r h
        have hsplit : r1 = r1.takeWhile isWs ++ ((d2 :: pre2) ++ r) := by
          rw [← hr1]
          exact (List.takeWhile_append_dropWhile isWs r1).symm
        have hwsrun : ∀ c ∈ r1.takeWhile isWs, isWs c = true :=
          fun c hc => List.mem_takeWhile_imp hc
        cases pre1 with
        | nil =>
          exfalso
          rw [List.length_nil] at hlen1
          exact hwne (List.length_eq_zero.mp hlen1.symm)
        | cons d pre1' =>
          refine ⟨d, pre1' ++ r1.takeWhile isWs ++ (d2 :: pre2), ?_,
            (hchars1 d (by simp)).1, ?_, ?_⟩
          · rw [hu1]
            conv_lhs => rw [hsplit]
            simp
          · intro c hc
            rcases List.mem_cons.mp hc with rfl | hc'
            · exact (hchars1 c (by simp)).2
            · rcases List.mem_append.mp hc' with hc'' | hc''
              · rcases List.mem_append.mp hc'' with h3 | h3
                · exact (hchars1 c (by simp [h3])).2
                · exact ws_ne_bracket (hwsrun c h3)
              · exact hbr2 c hc''
          · intro x
            have harr : (d :: (pre1' ++ r1.takeWhile isWs ++ (d2 :: pre2))) ++ x =
                (d :: pre1') ++ (r1.takeWhile isWs ++ ((d2 :: pre2) ++ x)) := by
              simp
            rw [harr]
            rw [show matchAlt (w :: w2 :: ws)
                ((d :: pre1') ++ (r1.takeWhile isWs ++ ((d2 :: pre2) ++ x))) =
              (match matchChars w
                  ((d :: pre1') ++ (r1.takeWhile isWs ++ ((d2 :: pre2) ++ x))) with
                | none => none
                | some r1 => matchAlt (w2 :: ws) (r1.dropWhile isWs)) from rfl]
            rw [hreplay1]
            dsimp only
            rw [List.cons_append]
            rw [dropWhile_ws_append _ hwsrun d2 hd2 (pre2 ++ x)]
            have hfin := hreplay2 x
            rw [List.cons_append] at hfin
            exact hfin

theorem tryMatchAlts_eq_none_iff :
    ∀ (as : List (List (List Char))) (u : List Char),
    tryMatchAlts as u = none ↔ ∀ a ∈ as, matchAlt a u = none := by
  intro as
  induction as with
  | nil => intro u; simp [tryMatchAlts]
  | cons a as2 ih =>
    intro u
    rw [tryMatchAlts]
    cases hm : matchAlt a u with
    | some r => simp [hm]
    | none => simp [hm, ih u]

theorem tryMatchAlts_eq_some :
    ∀ (as : List (List (List Char))) (u r : List Char),
    tryMatchAlts as u = some r → ∃ a ∈ as, matchAlt a u = some r := by
  intro as
  induction as with
  | nil => intro u r h; exact absurd h (by simp [tryMatchAlts])
  | cons a as2 ih =>
    intro u r h
    rw [tryMatchAlts] at h
    cases hm : matchAlt a u with
    | some r2 =>
      rw [hm] at h
      exact ⟨a, by simp, hm.trans h⟩
    | none =>
      rw [hm] at h
      obtain ⟨a2, ha2, hm2⟩ := ih u r h
      exact ⟨a2, by simp [ha2], hm2⟩

theorem altWords_ok : ∀ a ∈ altWords, a ≠ [] ∧
    (∀ w ∈ a, w ≠ [] ∧ ∀ p ∈ w, isWs p = false ∧ p ≠ '\x5b') := by
  decide

theorem tryMatch_split {u r : List Char} (h : tryMatch u = some r) :
    ∃ d pre, u = (d :: pre) ++ r ∧ (∀ c ∈ d :: pre, c ≠ '\x5b') ∧
      (∀ x, tryMatch ((d :: pre) ++ x) ≠ none) := by
  obtain ⟨a, ha, hm⟩ := tryMatchAlts_eq_some altWords u r h
  obtain ⟨hane, hachars⟩ := altWords_ok a ha
  obtain ⟨d, pre, hu, _, hbr, hreplay⟩ := matchAlt_split a hane hachars u r hm
  refine ⟨d, pre, hu, hbr, ?_⟩
  intro x hnone
  have hall := (tryMatchAlts_eq_none_iff altWords ((d :: pre) ++ x)).mp hnone a ha
  have hrep := hreplay x
  rw [hall] at hrep
  exact Option.noConfusion hrep

theorem tryMatch_none_of_bad_head (c : Char) (w : List Char)
    (h1 : (Char.toLower c == 's') = false) (h2 : (Char.toLower c == 'y') = false)
    (h3 : (Char.toLower c == 'a') = false) (h4 : (Char.toLower c == 'u') = false) :
    tryMatch (c :: w) = none := by
  unfold tryMatch
  simp [tryMatchAlts, altWords, matchAlt, matchChars, h1, h2, h3, h4]

theorem tryMatch_marker_suffix_none (m2 : List Char)
    (hsuf : m2 <:+ filteredMarker) (hne : m2 ≠ []) (S : List Char) :
    tryMatch (m2 ++ S) = none := by
  obtain ⟨c, m3, rfl⟩ := List.exists_cons_of_ne_nil hne
  have hc : c ∈ filteredMarker := hsuf.subset (by simp)
  rw [List.cons_append]
  fin_cases hc <;>
    exact tryMatch_none_of_bad_head _ _ (by decide) (by decide) (by decide) (by decide)

theorem tryMatch_nil_none : tryMatch [] = none := by decide

theorem subAuxF_zero (u : List Char) : subAuxF 0 u = [] := by
  cases u <;> rfl

theorem prefix_of_subAuxF :
    ∀ (fuel : Nat) (u p : List Char),
    p <+: subAuxF fuel u → '\x5b' ∉ p → p <+: u := by
  intro fuel
  induction fuel with
  | zero =>
    intro u p hp hbr
    rw [subAuxF_zero] at hp
    rw [List.prefix_nil.mp hp]
    exact List.nil_prefix
  | succ f ih =>
    intro u p hp hbr
    match u with
    | [] =>
      rw [show subAuxF (f + 1) [] = [] from rfl] at hp
      rw [List.prefix_nil.mp hp]
    | c :: rest =>
      rw [subAuxF] at hp
      cases hk : tryMatch (c :: rest) with
      | some r =>
        simp only [hk] at hp
        cases p with
        | nil => exact List.nil_prefix
        | cons q p2 =>
          exfalso
          rw [show filteredMarker ++ subAuxF f r =
            '\x5b' :: ("FILTERED]".data ++ subAuxF f r) from rfl] at hp
          obtain ⟨hq, -⟩ := List.cons_prefix_cons.mp hp
          exact hbr (by simp [hq])
      | none =>
        simp only [hk] at hp
        cases p with
        | nil => exact List.nil_prefix
        | cons q p2 =>
          obtain ⟨hq, hp2⟩ := List.cons_prefix_cons.mp hp
          subst hq
          have hbr2 : '\x5b' ∉ p2 := fun hm => hbr (by simp [hm])
          exact List.cons_prefix_cons.mpr ⟨rfl, ih rest p2 hp2 hbr2⟩

theorem tryMatch_cons_subAuxF_none {c : Char} {rest : List Char}
    (h : tryMatch (c :: rest) = none) (f : Nat) :
    tryMatch (c :: subAuxF f rest) = none := by
  cases hk : tryMatch (c :: subAuxF f rest) with
  | none => rfl
  | some r =>
    exfalso
    obtain ⟨d, pre, hu, hbr, hreplay⟩ := tryMatch_split hk
    rw [List.cons_append] at hu
    injection hu with hd htail
    have hbrpre : '\x5b' ∉ pre := fun hm => hbr '\x5b' (by simp [hm]) rfl
    have hpre : pre <+: rest :=
      prefix_of_subAuxF f rest pre ⟨r, htail.symm⟩ hbrpre
    obtain ⟨z, hz⟩ := hpre
    refine hreplay z ?_
    rw [List.cons_append, ← hd, hz]
    exact h

theorem suffix_append_cases {v a b : List Char} (h : v <:+ a ++ b) :
    v <:+ b ∨ ∃ a2, a2 <:+ a ∧ a2 ≠ [] ∧ v = a2 ++ b := by
  induction a with
  | nil => exact Or.inl (by simpa using h)
  | cons x a2 ih =>
    rw [List.cons_append] at h
    rcases List.suffix_cons_iff.mp h with rfl | h2
    · exact Or.inr ⟨x :: a2, List.suffix_refl _, by simp, by rw [List.cons_append]⟩
    · rcases ih h2 with hl | ⟨a3, hs, hne, rfl⟩
      · exact Or.inl hl
      · exact Or.inr ⟨a3, hs.trans (List.suffix_cons _ _), hne, rfl⟩

theorem cleanList_subAuxF : ∀ (fuel : Nat) (u : List Char),
    cleanList (subAuxF fuel u) := by
  intro fuel
  induction fuel with
  | zero =>
    intro u v hv
    rw [subAuxF_zero] at hv
    rw [List.suffix_nil.mp hv]
    exact tryMatch_nil_none
  | succ f ih =>
    intro u
    match u with
    | [] =>
      intro v hv
      rw [show subAuxF (f + 1) [] = [] from rfl] at hv
      rw [List.suffix_nil.mp hv]
      exact tryMatch_nil_none
    | c :: rest =>
      intro v hv
      rw [subAuxF] at hv
      cases hk : tryMatch (c :: rest) with
      | none =>
        simp only [hk] at hv
        rcases List.suffix_cons_iff.mp hv with rfl | hv2
        · exact tryMatch_cons_subAuxF_none hk f
        · exact ih rest v hv2
      | some r =>
        simp only [hk] at hv
        rcases suffix_append_cases hv with hvS | ⟨m2, hm2, hne, rfl⟩
        · exact ih r v hvS
        · exact tryMatch_marker_suffix_none m2 hm2 hne _

theorem subAuxF_eq_self_of_clean :
    ∀ (fuel : Nat) (m : List Char), m.length ≤ fuel → cleanList m →
    subAuxF fuel m = m := by
  intro fuel
  induction fuel with
  | zero =>
    intro m hlen _
    rw [subAuxF_zero]
    rw [List.length_eq_zero.mp (Nat.le_zero.mp hlen)]
  | succ f ih =>
    intro m hlen hclean
    match m with
    | [] => rfl
    | c :: rest =>
      rw [subAuxF]
      have hk : tryMatch (c :: rest) = none := hclean (c :: rest) (List.suffix_refl _)
      simp only [hk]
      have hcl : cleanList rest := fun v hv => hclean v (hv.trans (List.suffix_cons _ _))
      rw [ih rest (by rw [List.length_cons] at hlen; omega) hcl]

/-- C5: the input sanitizer is idempotent: applying the phrase-masking
substitution a second time changes nothing — a second pass finds no match,
because the replacement marker cannot take part in a match (no trigger
phrase contains a bracket and none starts with a marker letter) and every
untouched span of the first pass's output is an untouched span of the
input at which the first pass already failed to match. -/
theorem sanitize_input_idempotent (x : String) :
    sanitize_input (sanitize_input x) = sanitize_input x := by
  unfold sanitize_input
  exact congrArg String.mk
    (subAuxF_eq_self_of_clean _ _ le_rfl (cleanList_subAuxF _ _))

end HealthCare
